import Mathlib

/-!
# Verification of the mathy computer-algebra core

A shallow embedding of the expression model (`src/mathy/core/expressions.py`),
the commutative-swap rewrite rule
(`src/mathy/core/rules/commutative_property.py`) and the term-analysis helpers
(`src/mathy/helpers.py`), together with proofs settling the frozen claims
about the specification.

Modelling conventions:
* Python numbers (int/float) are modelled as `ℚ`.  Floating-point `NaN`
  (produced by division by zero) and raised exceptions are both modelled as
  `Option.none` propagating through evaluation; `numpy.power` is modelled for
  integer exponents only (other exponents also map to `none`).
* The per-node rendering colour machinery (`with_color`, `_rendering_change`,
  `_changed`) never changes the plain-text output of `str(node)` (it only adds
  terminal colour codes when explicitly requested via `.colored`), so the text
  renderer is modelled without it.
* Trees are pure values.  In-place child mutation at a node is modelled by
  addressing the node through a root-to-node path and rebuilding the root
  value; the value of the caller's tree after a mutating call is the rebuilt
  root.
-/

namespace Mathy

/-- A path step selecting the left or right child of a node
(`BinaryTreeNode` keeps `left`/`right` links; a unary expression stores its
child as its `left` link, because `UnaryExpression.__init__` defaults to
`operatorOnLeft=True` and `set_child` then calls `set_left`). -/
inductive Side where
  | L : Side
  | R : Side
deriving DecidableEq, Repr

/-- A root-to-node address inside a tree. -/
abbrev TreePath := List Side

/-- The expression node kinds of `mathy.core.expressions`:
`ConstantExpression`, `VariableExpression`, `NegateExpression`,
`AbsExpression`, `SgnExpression`, `AddExpression`, `SubtractExpression`,
`MultiplyExpression`, `DivideExpression`, `PowerExpression`,
`EqualExpression`.  Children of binary nodes are required present, matching
the documented invariant that `left`/`right` are non-null before any
string/evaluate/differentiate call. -/
inductive MathExpression where
  | const (value : ℚ) : MathExpression
  | var (identifier : String) : MathExpression
  | neg (child : MathExpression) : MathExpression
  | abs (child : MathExpression) : MathExpression
  | sgn (child : MathExpression) : MathExpression
  | add (left right : MathExpression) : MathExpression
  | sub (left right : MathExpression) : MathExpression
  | mul (left right : MathExpression) : MathExpression
  | div (left right : MathExpression) : MathExpression
  | pow (left right : MathExpression) : MathExpression
  | equal (left right : MathExpression) : MathExpression
deriving DecidableEq, Repr

namespace MathExpression

/-- `left` link of a node (unary nodes keep their child on the left). -/
def leftOf : MathExpression → Option MathExpression
  | const _ => none
  | var _ => none
  | neg c => some c
  | abs c => some c
  | sgn c => some c
  | add l _ => some l
  | sub l _ => some l
  | mul l _ => some l
  | div l _ => some l
  | pow l _ => some l
  | equal l _ => some l

/-- `right` link of a node. -/
def rightOf : MathExpression → Option MathExpression
  | add _ r => some r
  | sub _ r => some r
  | mul _ r => some r
  | div _ r => some r
  | pow _ r => some r
  | equal _ r => some r
  | _ => none

/-- The child on a given side. -/
def childOf (e : MathExpression) : Side → Option MathExpression
  | Side.L => e.leftOf
  | Side.R => e.rightOf

/-- Rebuild a node with the child on the given side replaced
(the pure-value counterpart of `set_left` / `set_right`). -/
def setChild : MathExpression → Side → MathExpression → Option MathExpression
  | neg _, Side.L, x => some (neg x)
  | abs _, Side.L, x => some (abs x)
  | sgn _, Side.L, x => some (sgn x)
  | add _ r, Side.L, x => some (add x r)
  | sub _ r, Side.L, x => some (sub x r)
  | mul _ r, Side.L, x => some (mul x r)
  | div _ r, Side.L, x => some (div x r)
  | pow _ r, Side.L, x => some (pow x r)
  | equal _ r, Side.L, x => some (equal x r)
  | add l _, Side.R, x => some (add l x)
  | sub l _, Side.R, x => some (sub l x)
  | mul l _, Side.R, x => some (mul l x)
  | div l _, Side.R, x => some (div l x)
  | pow l _, Side.R, x => some (pow l x)
  | equal l _, Side.R, x => some (equal l x)
  | _, _, _ => none

/-- The subtree at a root-to-node path. -/
def subtreeAt (e : MathExpression) : TreePath → Option MathExpression
  | [] => some e
  | s :: ps => (e.childOf s).bind (fun c => c.subtreeAt ps)

/-- Replace the subtree at a path, rebuilding the root value.  This is the
pure-value effect that an in-place mutation of the node at that address has
on the root of the tree that owns it. -/
def replaceAt (e : MathExpression) (p : TreePath) (x : MathExpression) :
    Option MathExpression :=
  match p with
  | [] => some x
  | s :: ps =>
    (e.childOf s).bind fun c => (c.replaceAt ps x).bind fun c2 => e.setChild s c2

/-- Association-list lookup, modelling a Python dict read that raises
`KeyError` (`none`) on a missing key. -/
def lookupKey (k : String) : List (String × α) → Option α
  | [] => none
  | (k', v) :: rest => if k = k' then some v else lookupKey k rest

/-- `MathExpression.evaluate(context)` and the `operate` methods of each
subclass.  `none` models a raised exception or a float `NaN` result:
* `VariableExpression.evaluate` runs `if context and context[id]`, so it
  raises when the bindings dict is empty, when the identifier is missing
  (dict `KeyError`) and — because `0` is falsy — when the bound value is `0`;
* `DivideExpression.operate` returns `NaN` on division by zero;
* `PowerExpression.operate` delegates to `numpy.power`, modelled for integer
  exponents (with `0` raised to a negative power mapped to `none`);
* `EqualExpression.operate` unconditionally raises. -/
def evaluate : MathExpression → List (String × ℚ) → Option ℚ
  | const v, _ => some v
  | var s, b =>
    match b with
    | [] => none
    | _ =>
      match lookupKey s b with
      | none => none
      | some v => if v = 0 then none else some v
  | neg c, b => (c.evaluate b).bind fun v => some (-v)
  | abs c, b => (c.evaluate b).bind fun v => some |v|
  | sgn c, b =>
    (c.evaluate b).bind fun v =>
      some (if v < 0 then -1 else if 0 < v then 1 else 0)
  | add l r, b =>
    (l.evaluate b).bind fun x => (r.evaluate b).bind fun y => some (x + y)
  | sub l r, b =>
    (l.evaluate b).bind fun x => (r.evaluate b).bind fun y => some (x - y)
  | mul l r, b =>
    (l.evaluate b).bind fun x => (r.evaluate b).bind fun y => some (x * y)
  | div l r, b =>
    (l.evaluate b).bind fun x => (r.evaluate b).bind fun y =>
      if y = 0 then none else some (x / y)
  | pow l r, b =>
    (l.evaluate b).bind fun x => (r.evaluate b).bind fun y =>
      if y.den = 1 then
        if x = 0 ∧ y.num < 0 then none else some (x ^ y.num)
      else none
  | equal _ _, _ => none

end MathExpression

open MathExpression

/-- The `Change` record produced by a rule application.

Modelled from the spec: `mathy/core/rule.py` (the `BaseRule` /
change-record class) is not under `src/`; §3 of the spec describes the
record as holding "references to the subtree *before* and the subtree
*after* the rewrite, plus the (possibly different) tree root after the
swap". -/
structure Change where
  before : MathExpression
  after : MathExpression
  root : MathExpression
deriving DecidableEq, Repr

namespace CommutativeSwapRule

/-- `CommutativeSwapRule.can_apply_to(node)`: `True` for every `Add`;
for a `Multiply`, when the rule's `preferred` flag is `False` the rule
does not apply to nodes already in preferred position — a
`Constant * Variable` product, or any product whose right child is
`Variable ^ Constant`; every other node kind returns `False`.  The
`preferred` argument is the rule's `preferred` field (default `True`). -/
def can_apply_to (preferred : Bool) (node : MathExpression) : Bool :=
  match node with
  | .add _ _ => true
  | .mul l r =>
    if preferred = false then
      if (match l with | .const _ => true | _ => false) &&
         (match r with | .var _ => true | _ => false) then
        false
      else
        match r with
        | .pow rl rr =>
          if (match rl with | .var _ => true | _ => false) &&
             (match rr with | .const _ => true | _ => false) then
            false
          else true
        | _ => true
    else true
  | _ => false

/-- The swapped version of an `Add`/`Multiply` node:
`apply_to` runs `node.set_right(node.left); node.set_left(node.right)`. -/
def swapped : MathExpression → Option MathExpression
  | .add l r => some (.add r l)
  | .mul l r => some (.mul r l)
  | _ => none

/-- `CommutativeSwapRule.apply_to(node)` for the node at path `p` of the
tree rooted at `T`.  The swap mutates the node in place
(`set_right`/`set_left` on the node itself), so the change's `root` is the
caller's own tree with the two children of that node exchanged.

Modelled from the spec for the part living in the missing
`mathy/core/rule.py`: per §4.4, `apply_to` has precondition
`can_apply_to(node)` and fails with `InapplicableRule` when it is violated
(`none` here); the change record is populated with the subtree before the
rewrite, the rewritten subtree (`change.done(node)`), and the root of the
tree after the swap. -/
def apply_to (preferred : Bool) (T : MathExpression) (p : TreePath) :
    Option Change :=
  match T.subtreeAt p with
  | none => none
  | some n =>
    if can_apply_to preferred n then
      match swapped n with
      | none => none
      | some n' =>
        match T.replaceAt p n' with
        | none => none
        | some T' => some ⟨n, n', T'⟩
    else none

/-- The value of the caller's tree after `apply_to` returns: the code swaps
the children of the addressed node with `set_right`/`set_left`, mutating the
caller's tree in place, so the caller's tree becomes the rebuilt root (not
the original value, and no clone is taken inside `apply_to`). -/
def tree_after_apply (preferred : Bool) (T : MathExpression) (p : TreePath) :
    Option MathExpression :=
  match T.subtreeAt p with
  | none => none
  | some n =>
    if can_apply_to preferred n then
      match swapped n with
      | none => none
      | some n' => T.replaceAt p n'
    else none

end CommutativeSwapRule

namespace MathExpression

@[simp] theorem evaluate_const : evaluate (const v) b = some v := rfl
@[simp] theorem evaluate_neg :
    evaluate (neg c) b = (c.evaluate b).bind fun v => some (-v) := rfl
@[simp] theorem evaluate_abs :
    evaluate (abs c) b = (c.evaluate b).bind fun v => some |v| := rfl
@[simp] theorem evaluate_sgn :
    evaluate (sgn c) b = (c.evaluate b).bind fun v =>
      some (if v < 0 then -1 else if 0 < v then 1 else 0) := rfl
@[simp] theorem evaluate_add :
    evaluate (add l r) b =
      (l.evaluate b).bind fun x => (r.evaluate b).bind fun y => some (x + y) := rfl
@[simp] theorem evaluate_sub :
    evaluate (sub l r) b =
      (l.evaluate b).bind fun x => (r.evaluate b).bind fun y => some (x - y) := rfl
@[simp] theorem evaluate_mul :
    evaluate (mul l r) b =
      (l.evaluate b).bind fun x => (r.evaluate b).bind fun y => some (x * y) := rfl
@[simp] theorem evaluate_div :
    evaluate (div l r) b =
      (l.evaluate b).bind fun x => (r.evaluate b).bind fun y =>
        if y = 0 then none else some (x / y) := rfl
@[simp] theorem evaluate_pow :
    evaluate (pow l r) b =
      (l.evaluate b).bind fun x => (r.evaluate b).bind fun y =>
        if y.den = 1 then
          if x = 0 ∧ y.num < 0 then none else some (x ^ y.num)
        else none := rfl
@[simp] theorem evaluate_equal : evaluate (equal l r) b = none := rfl

/-- Swapping the operands of an `Add` preserves the evaluation result. -/
theorem evaluate_add_comm (l r : MathExpression) (b : List (String × ℚ)) :
    evaluate (add r l) b = evaluate (add l r) b := by
  cases hl : l.evaluate b <;> cases hr : r.evaluate b <;>
    simp [hl, hr, Option.bind]
  exact add_comm _ _

/-- Swapping the operands of a `Multiply` preserves the evaluation result. -/
theorem evaluate_mul_comm (l r : MathExpression) (b : List (String × ℚ)) :
    evaluate (mul r l) b = evaluate (mul l r) b := by
  cases hl : l.evaluate b <;> cases hr : r.evaluate b <;>
    simp [hl, hr, Option.bind]
  exact mul_comm _ _

/-- Replacing the subtree at a path by one that evaluates identically under
every binding leaves the evaluation of the whole tree unchanged. -/
theorem evaluate_replaceAt (p : TreePath) :
    ∀ (T T' s x : MathExpression), T.subtreeAt p = some s →
      T.replaceAt p x = some T' →
      (∀ b, evaluate x b = evaluate s b) →
      ∀ b, evaluate T' b = evaluate T b := by
  induction p with
  | nil =>
    intro T T' s x hs hr he b
    simp [MathExpression.subtreeAt] at hs
    simp [MathExpression.replaceAt] at hr
    subst hs; subst hr
    exact he b
  | cons sd ps ih =>
    intro T T' s x hs hr he b
    cases T <;> cases sd <;>
      simp [MathExpression.subtreeAt, MathExpression.replaceAt,
            MathExpression.childOf, MathExpression.leftOf,
            MathExpression.rightOf, Option.bind_eq_some] at hs hr <;>
      obtain ⟨c2, hc2, hset⟩ := hr <;>
      simp [MathExpression.setChild] at hset <;>
      subst hset <;>
      simp [ih _ _ _ _ hs hc2 he b]

/-- After a successful replacement, the subtree found at the same path is the
replacement. -/
theorem subtreeAt_replaceAt (p : TreePath) :
    ∀ (T T' x : MathExpression), T.replaceAt p x = some T' →
      T'.subtreeAt p = some x := by
  induction p with
  | nil =>
    intro T T' x hr
    simp [MathExpression.replaceAt] at hr
    subst hr
    rfl
  | cons sd ps ih =>
    intro T T' x hr
    cases T <;> cases sd <;>
      simp [MathExpression.replaceAt, MathExpression.childOf,
            MathExpression.leftOf, MathExpression.rightOf,
            Option.bind_eq_some] at hr <;>
      obtain ⟨c2, hc2, hset⟩ := hr <;>
      simp [MathExpression.setChild] at hset <;>
      subst hset <;>
      simp [MathExpression.subtreeAt, MathExpression.childOf,
            MathExpression.leftOf, MathExpression.rightOf, ih _ _ _ hc2]

/-- Replacing a subtree by itself succeeds and rebuilds the same tree. -/
theorem replaceAt_self (p : TreePath) :
    ∀ (T s : MathExpression), T.subtreeAt p = some s →
      T.replaceAt p s = some T := by
  induction p with
  | nil =>
    intro T s hs
    simp [MathExpression.subtreeAt] at hs
    subst hs
    rfl
  | cons sd ps ih =>
    intro T s hs
    cases T <;> cases sd <;>
      simp [MathExpression.subtreeAt, MathExpression.childOf,
            MathExpression.leftOf, MathExpression.rightOf,
            Option.bind_eq_some] at hs <;>
      simp [MathExpression.replaceAt, MathExpression.childOf,
            MathExpression.leftOf, MathExpression.rightOf,
            Option.bind_eq_some, ih _ _ hs, MathExpression.setChild]

/-- Two successive replacements at the same path: the second behaves as a
replacement on the original tree. -/
theorem replaceAt_replaceAt (p : TreePath) :
    ∀ (T T' x y : MathExpression), T.replaceAt p x = some T' →
      T'.replaceAt p y = T.replaceAt p y := by
  induction p with
  | nil => intro T T' x y _; rfl
  | cons sd ps ih =>
    intro T T' x y hr
    cases T <;> cases sd <;>
      simp [MathExpression.replaceAt, MathExpression.childOf,
            MathExpression.leftOf, MathExpression.rightOf,
            Option.bind_eq_some] at hr <;>
      obtain ⟨c2, hc2, hset⟩ := hr <;>
      simp [MathExpression.setChild] at hset <;>
      subst hset <;>
      simp [MathExpression.replaceAt, MathExpression.childOf,
            MathExpression.leftOf, MathExpression.rightOf,
            ih _ _ _ _ hc2, MathExpression.setChild]

end MathExpression

open CommutativeSwapRule in
/-- C1.  For every `Add` or `Multiply` node (at path `p` of the tree `T`)
accepted by `CommutativeSwapRule.can_apply_to` — a successful `apply_to`
implies this — and every variable binding under which the original tree
evaluates without error, the root of the tree produced by `apply_to`
evaluates to the same value as the original root: the swap of the node's
left and right children is value-preserving. -/
theorem commutative_swap_preserves_value
    (preferred : Bool) (T : MathExpression) (p : TreePath) (ch : Change)
    (b : List (String × ℚ)) (v : ℚ)
    (happ : apply_to preferred T p = some ch)
    (heval : T.evaluate b = some v) :
    ch.root.evaluate b = some v := by
  unfold CommutativeSwapRule.apply_to at happ
  split at happ
  · exact absurd happ (by simp)
  next n hs =>
    split at happ
    · split at happ
      · exact absurd happ (by simp)
      next n' hsw =>
        split at happ
        · exact absurd happ (by simp)
        next T' hrep =>
          simp only [Option.some.injEq] at happ
          have hcomm : ∀ b', n'.evaluate b' = n.evaluate b' := by
            intro b'
            cases n <;> simp [CommutativeSwapRule.swapped] at hsw <;>
              rw [← hsw]
            · exact MathExpression.evaluate_add_comm _ _ _
            · exact MathExpression.evaluate_mul_comm _ _ _
          have hrw := MathExpression.evaluate_replaceAt p T T' n n' hs hrep hcomm b
          rw [← happ]
          simpa [hrw] using heval
    · exact absurd happ (by simp)

/-- Witness for C1 at the concrete tree `1 + 2` with the rule applied at its
root: the swapped tree still evaluates to `3`. -/
theorem commutative_swap_preserves_value_witness :
    (Change.root ⟨.add (.const 1) (.const 2), .add (.const 2) (.const 1),
        .add (.const 2) (.const 1)⟩).evaluate [] = some 3 :=
  commutative_swap_preserves_value true
    (.add (.const 1) (.const 2)) []
    ⟨.add (.const 1) (.const 2), .add (.const 2) (.const 1),
      .add (.const 2) (.const 1)⟩
    [] 3 (by with_unfolding_all rfl) (by with_unfolding_all rfl)

/-- C2 counterexample.  `CommutativeSwapRule.apply_to` swaps the children of
the addressed node with `set_right`/`set_left` on the caller's own node, so
after the call on the root of `1 + 2` the caller's tree is `2 + 1`: the
original tree does *not* keep the children it had before the call, and no
clone is taken (`apply_to` never calls `clone_from_root`), contradicting the
claim that `before`/`after`/`root` reference a clone and the original tree
is left intact. -/
theorem commutative_swap_mutates_counterexample :
    CommutativeSwapRule.tree_after_apply true
        (.add (.const 1) (.const 2)) [] =
      some (.add (.const 2) (.const 1)) ∧
    MathExpression.add (.const 2) (.const 1) ≠
      MathExpression.add (.const 1) (.const 2) := by
  constructor
  · with_unfolding_all rfl
  · with_unfolding_all decide

open CommutativeSwapRule in
/-- C2 amended.  `CommutativeSwapRule.apply_to` mutates the node's original
tree in place: after a successful call the caller's tree has the addressed
node's children swapped, and the returned change's `before` is the node as
it was in the original tree, its `after` is the swapped node and its `root`
is the caller's own (now mutated) tree — not a clone.  Callers that need
isolation clone the root themselves before calling (as
`math_game.getNextState` does with `token.rootClone()`). -/
theorem commutative_swap_apply_to_in_place
    (preferred : Bool) (T : MathExpression) (p : TreePath) (ch : Change)
    (happ : apply_to preferred T p = some ch) :
    tree_after_apply preferred T p = some ch.root ∧
    T.subtreeAt p = some ch.before ∧
    ch.root.subtreeAt p = some ch.after := by
  unfold CommutativeSwapRule.apply_to at happ
  split at happ
  · exact absurd happ (by simp)
  next n hs =>
    split at happ
    next hca =>
      split at happ
      · exact absurd happ (by simp)
      next n' hsw =>
        split at happ
        · exact absurd happ (by simp)
        next T' hrep =>
          simp only [Option.some.injEq] at happ
          subst happ
          refine ⟨?_, hs, ?_⟩
          · simp only [CommutativeSwapRule.tree_after_apply, hs, hca, hsw,
              if_true]
            exact hrep
          · exact MathExpression.subtreeAt_replaceAt p T T' n' hrep
    · exact absurd happ (by simp)

/-- Witness for the C2 amended theorem at the tree `1 + 2`. -/
theorem commutative_swap_apply_to_in_place_witness :
    CommutativeSwapRule.tree_after_apply true (.add (.const 1) (.const 2)) [] =
      some (Change.root ⟨.add (.const 1) (.const 2),
        .add (.const 2) (.const 1), .add (.const 2) (.const 1)⟩) ∧
    (MathExpression.add (.const 1) (.const 2)).subtreeAt [] =
      some (Change.before ⟨.add (.const 1) (.const 2),
        .add (.const 2) (.const 1), .add (.const 2) (.const 1)⟩) ∧
    (Change.root ⟨.add (.const 1) (.const 2), .add (.const 2) (.const 1),
        .add (.const 2) (.const 1)⟩).subtreeAt [] =
      some (Change.after ⟨.add (.const 1) (.const 2),
        .add (.const 2) (.const 1), .add (.const 2) (.const 1)⟩) :=
  commutative_swap_apply_to_in_place true (.add (.const 1) (.const 2)) []
    ⟨.add (.const 1) (.const 2), .add (.const 2) (.const 1),
      .add (.const 2) (.const 1)⟩
    (by with_unfolding_all rfl)

/-- C3 counterexample.  With the `preferred` flag *set* (`True`, the
default), `can_apply_to` on the canonical multiply node `4 * x` returns
`True` — the claim says a set flag plus canonical order must yield `False`.
The preferred-position exemption is in fact attached to `preferred is
False`: the second conjunct shows the same node is rejected when the flag
is `False` (which also matches the claim's own `4x` scenario). -/
theorem can_apply_to_preferred_counterexample :
    CommutativeSwapRule.can_apply_to true (.mul (.const 4) (.var "x")) = true ∧
    CommutativeSwapRule.can_apply_to false (.mul (.const 4) (.var "x")) = false := by
  exact ⟨rfl, rfl⟩

/-- C3 amended.  `can_apply_to` returns `True` for every `Add` node; for a
`Multiply` node it returns `True` unless the rule's `preferred` flag is
`False` and the node is in canonical order — `Constant * Variable`, or any
product whose right child is `Variable ^ Constant` (the left factor is not
inspected in the power case); every other node kind returns `False`.  In
particular, with `preferred=False`, `can_apply_to` on the multiply node of
`4x` is `False`. -/
theorem can_apply_to_characterization :
    (∀ (preferred : Bool) (n : MathExpression),
      CommutativeSwapRule.can_apply_to preferred n =
        (match n with
         | .add _ _ => true
         | .mul l r =>
           !(!preferred &&
             ((match l, r with | .const _, .var _ => true | _, _ => false) ||
              (match r with
               | .pow (.var _) (.const _) => true
               | _ => false)))
         | _ => false)) ∧
    CommutativeSwapRule.can_apply_to false
      (.mul (.const 4) (.var "x")) = false := by
  refine ⟨fun preferred n => ?_, rfl⟩
  cases n <;> cases preferred <;> try rfl
  case mul.false l r =>
    cases l <;> cases r <;>
      first
        | rfl
        | (rename_i rl rr; cases rl <;> cases rr <;> rfl)

namespace MathExpression

/-- `OOO_ADDSUB` operator-priority rank. -/
def OOO_ADDSUB : ℤ := 0
/-- `OOO_MULTDIV` operator-priority rank. -/
def OOO_MULTDIV : ℤ := 1
/-- `OOO_EXPONENT` operator-priority rank. -/
def OOO_EXPONENT : ℤ := 2
/-- `OOO_PARENS` operator-priority rank. -/
def OOO_PARENS : ℤ := 3
/-- `OOO_FUNCTION` operator-priority rank. -/
def OOO_FUNCTION : ℤ := 4
/-- `OOO_INVALID` operator-priority rank. -/
def OOO_INVALID : ℤ := -1

/-- `BinaryExpression.get_priority`, defined on binary nodes only (it is a
method of `BinaryExpression`; `none` marks non-binary nodes, on which the
renderer never consults it). `EqualExpression` falls in the `OOO_INVALID`
branch of the cascade. -/
def get_priority : MathExpression → Option ℤ
  | equal _ _ => some OOO_INVALID
  | add _ _ => some OOO_ADDSUB
  | sub _ _ => some OOO_ADDSUB
  | mul _ _ => some OOO_MULTDIV
  | div _ _ => some OOO_MULTDIV
  | pow _ _ => some OOO_EXPONENT
  | _ => none

/-- Python `str()` of a node's numeric value, modelled for the integer
values the claims exercise (a non-integral rational is shown as
`num/den`; Python would print a float form instead). -/
def qstr (v : ℚ) : String :=
  if v.den = 1 then toString v.num else toString v.num ++ "/" ++ toString v.den

/-- `BinaryExpression.self_parens` for a node of priority `mp` whose
rendering context is `ctx` (`some pp` when the node's parent is a
`BinaryExpression` of priority `pp`, `none` otherwise). -/
def self_wrap (ctx : Option ℤ) (mp : ℤ) : Bool :=
  match ctx with
  | some pp => decide (mp < pp)
  | none => false

/-- `BinaryExpression.left_parens` of a parent with priority `mp`: the left
child is binary, is not itself self-parenthesized under this parent, and has
strictly lower priority. -/
def left_parens (mp : ℤ) (l : MathExpression) : Bool :=
  match l.get_priority with
  | none => false
  | some cp => !(decide (cp < mp)) && decide (cp < mp)

/-- `BinaryExpression.right_parens` of a parent with priority `mp`: the
right child is binary, is not itself self-parenthesized under this parent,
and has lower-or-equal priority. -/
def right_parens (mp : ℤ) (r : MathExpression) : Bool :=
  match r.get_priority with
  | none => false
  | some cp => !(decide (cp < mp)) && decide (cp ≤ mp)

/-- Wrap a rendered string in parentheses when the flag is set. -/
def parenIf (b : Bool) (s : String) : String :=
  if b then "(" ++ s ++ ")" else s

/-- `f"{left} {name} {right}"`: join two rendered children with a spaced
operator. -/
def opJoin (ls opN rs : String) : String :=
  ls ++ " " ++ opN ++ " " ++ rs

/-- The body of `BinaryExpression.__str__` given the already-rendered
children: `left OP right` with the three parenthesization checks. -/
def binary_str (ctx : Option ℤ) (mp : ℤ) (opN : String) (l r : MathExpression)
    (ls rs : String) : String :=
  parenIf (self_wrap ctx mp)
    (opJoin (parenIf (left_parens mp l) ls) opN
      (parenIf (right_parens mp r) rs))

/-- Does the node trigger `MultiplyExpression.__str__`'s compact
`Constant * Variable` / `Constant * Power` output (e.g. `4x`, `4x^2`)? -/
def compact_mul : MathExpression → Bool
  | mul (const _) (var _) => true
  | mul (const _) (pow _ _) => true
  | _ => false

/-- `str(node)` (`__str__` of each node class) rendered in a context:
`ctx = some pp` when the node's parent is a `BinaryExpression` of priority
`pp`, `none` when it has no parent or a non-binary parent.  Unary nodes
render their operator plus child; `PowerExpression.__str__` is overridden to
`left^right` with no parenthesization of its own; `MultiplyExpression`
special-cases the compact constant-times-variable/power form; all other
binary nodes use `BinaryExpression.__str__`.  Colour decoration
(`with_color`) never alters the plain text and is omitted. -/
def to_text_aux : MathExpression → Option ℤ → String
  | const v, _ => qstr v
  | var s, _ => s
  | neg c, _ => "-" ++ to_text_aux c none
  | abs c, _ => "abs(" ++ to_text_aux c none ++ ")"
  | sgn c, _ => "sgn(" ++ to_text_aux c none ++ ")"
  | pow l r, _ => to_text_aux l (some OOO_EXPONENT) ++ "^" ++
      to_text_aux r (some OOO_EXPONENT)
  | mul l r, ctx =>
    if compact_mul (mul l r) then
      to_text_aux l (some OOO_MULTDIV) ++ to_text_aux r (some OOO_MULTDIV)
    else
      binary_str ctx OOO_MULTDIV "*" l r
        (to_text_aux l (some OOO_MULTDIV)) (to_text_aux r (some OOO_MULTDIV))
  | add l r, ctx =>
    binary_str ctx OOO_ADDSUB "+" l r
      (to_text_aux l (some OOO_ADDSUB)) (to_text_aux r (some OOO_ADDSUB))
  | sub l r, ctx =>
    binary_str ctx OOO_ADDSUB "-" l r
      (to_text_aux l (some OOO_ADDSUB)) (to_text_aux r (some OOO_ADDSUB))
  | div l r, ctx =>
    binary_str ctx OOO_MULTDIV "/" l r
      (to_text_aux l (some OOO_MULTDIV)) (to_text_aux r (some OOO_MULTDIV))
  | equal l r, ctx =>
    binary_str ctx OOO_INVALID "=" l r
      (to_text_aux l (some OOO_INVALID)) (to_text_aux r (some OOO_INVALID))

/-- The rendering context of the node at path `p`: `some pp` when its parent
(along the walk from the tree that owns it) is a binary node of priority
`pp`.  The third argument is the context inherited at the current root. -/
def ctx_at : MathExpression → TreePath → Option ℤ → Option ℤ
  | _, [], c => c
  | e, s :: ps, _ =>
    match e.childOf s with
    | none => none
    | some ch => ctx_at ch ps e.get_priority

/-- `str(node)` for the node at path `p` inside the tree `T` (rendering an
interior node consults its parent for the self-parenthesization check). -/
def render_at (T : MathExpression) (p : TreePath) : Option String :=
  (T.subtreeAt p).map fun n => to_text_aux n (ctx_at T p none)

/-- `str(root)`: render a whole tree (no parent). -/
def to_text (e : MathExpression) : String :=
  to_text_aux e none

end MathExpression

open CommutativeSwapRule in
/-- C10 amended.  Applying `CommutativeSwapRule.apply_to` twice in
succession to the same node restores the tree exactly — the swap is an
involution — *provided the second application is accepted*: with
`preferred=False` the tree produced by the first swap can be in canonical
order, in which case the second `apply_to` fails with `InapplicableRule`
instead (see the counterexample); for `Add` nodes and for rules with
`preferred=True` the second application is always accepted. -/
theorem commutative_swap_double_apply_restores
    (preferred : Bool) (T : MathExpression) (p : TreePath) (c1 c2 : Change)
    (h1 : apply_to preferred T p = some c1)
    (h2 : apply_to preferred c1.root p = some c2) :
    c2.root = T ∧ c2.root.to_text = T.to_text := by
  have main : c2.root = T := by
    unfold CommutativeSwapRule.apply_to at h1
    split at h1
    · exact absurd h1 (by simp)
    next n hs =>
      split at h1
      · split at h1
        · exact absurd h1 (by simp)
        next n' hsw =>
          split at h1
          · exact absurd h1 (by simp)
          next T' hrep =>
            simp only [Option.some.injEq] at h1
            unfold CommutativeSwapRule.apply_to at h2
            split at h2
            · exact absurd h2 (by simp)
            next m hm =>
              split at h2
              · split at h2
                · exact absurd h2 (by simp)
                next m' hswm =>
                  split at h2
                  · exact absurd h2 (by simp)
                  next T2 hrep2 =>
                    simp only [Option.some.injEq] at h2
                    -- the subtree seen by the second application is the
                    -- swapped node, and swapping it again gives the original
                    have hroot1 : c1.root = T' := by rw [← h1]
                    have hm' : m = n' := by
                      have := MathExpression.subtreeAt_replaceAt p T T' n' hrep
                      rw [hroot1] at hm
                      rw [hm] at this
                      exact (Option.some.injEq _ _).mp this.symm |>.symm
                    have hswap2 : m' = n := by
                      subst hm'
                      cases n <;> simp [CommutativeSwapRule.swapped] at hsw <;>
                        subst hsw <;>
                        simpa [CommutativeSwapRule.swapped] using hswm.symm
                    have : T2 = T := by
                      rw [hswap2, hroot1] at hrep2
                      rw [MathExpression.replaceAt_replaceAt p T T' n' n hrep,
                        MathExpression.replaceAt_self p T n hs] at hrep2
                      exact ((Option.some.injEq _ _).mp hrep2).symm
                    rw [← h2, this]
              · exact absurd h2 (by simp)
      · exact absurd h1 (by simp)
  exact ⟨main, by rw [main]⟩

open CommutativeSwapRule in
/-- Witness for the C10 amended theorem: double application at the root of
`1 + 2` returns to the original tree. -/
theorem commutative_swap_double_apply_restores_witness :
    Change.root ⟨.add (.const 2) (.const 1), .add (.const 1) (.const 2),
        .add (.const 1) (.const 2)⟩ =
      MathExpression.add (.const 1) (.const 2) ∧
    (Change.root ⟨.add (.const 2) (.const 1), .add (.const 1) (.const 2),
        .add (.const 1) (.const 2)⟩).to_text =
      (MathExpression.add (.const 1) (.const 2)).to_text :=
  commutative_swap_double_apply_restores true
    (.add (.const 1) (.const 2)) []
    ⟨.add (.const 1) (.const 2), .add (.const 2) (.const 1),
      .add (.const 2) (.const 1)⟩
    ⟨.add (.const 2) (.const 1), .add (.const 1) (.const 2),
      .add (.const 1) (.const 2)⟩
    (by with_unfolding_all rfl) (by with_unfolding_all rfl)

open CommutativeSwapRule in
/-- C10 counterexample.  "Applying `apply_to` twice in succession" is not
always possible: with `preferred=False`, the first application to the
(commutable) node `x * 4` succeeds and produces the canonical `4x`, on which
`can_apply_to` — and therefore the precondition-checked second `apply_to` —
fails, so the double swap does not restore the tree. -/
theorem commutative_swap_double_apply_counterexample :
    (apply_to false (.mul (.var "x") (.const 4)) []).isSome = true ∧
    (apply_to false (.mul (.var "x") (.const 4)) []).bind
        (fun c => apply_to false c.root []) = none := by
  constructor
  · with_unfolding_all rfl
  · with_unfolding_all rfl

namespace MathExpression

/-- Does the node render through the shared `BinaryExpression.__str__` body
(if not, it is a leaf, a unary node, a `Power` — whose `__str__` override
adds no parentheses — or a compact multiply)? -/
def uses_generic_binary_str : MathExpression → Bool
  | add _ _ => true
  | sub _ _ => true
  | div _ _ => true
  | equal _ _ => true
  | mul l r => !compact_mul (mul l r)
  | _ => false

/-- Net self-parenthesization: a node wraps itself exactly when it renders
through `BinaryExpression.__str__` and its parent context has strictly
higher priority. -/
def net_selfwrap (c : MathExpression) (pp : ℤ) : Bool :=
  uses_generic_binary_str c &&
    (match c.get_priority with
     | some cp => decide (cp < pp)
     | none => false)

/-- Net parenthesization of a right child under a parent of priority `mp`:
either the child self-parenthesizes (strictly lower priority) or the
parent's `right_parens` check fires (equal priority). -/
def net_right (mp : ℤ) (r : MathExpression) : Bool :=
  net_selfwrap r mp || right_parens mp r

/-- `left_parens` never fires: it demands the left child be *not*
self-parenthesized yet of strictly lower priority, and under its parent
those two conditions coincide. -/
theorem left_parens_eq_false (mp : ℤ) (l : MathExpression) :
    left_parens mp l = false := by
  unfold left_parens
  cases l.get_priority with
  | none => rfl
  | some cp => by_cases h : cp < mp <;> simp [h]

theorem parenIf_parenIf (a b : Bool) (s : String) (h : (a && b) = false) :
    parenIf a (parenIf b s) = parenIf (b || a) s := by
  cases a <;> cases b <;> simp_all [parenIf]

/-- The `right_parens` check and net self-parenthesization are mutually
exclusive (equal versus strictly lower priority). -/
theorem right_parens_net_selfwrap (mp : ℤ) (r : MathExpression) :
    (right_parens mp r && net_selfwrap r mp) = false := by
  unfold right_parens net_selfwrap
  cases r.get_priority with
  | none => simp
  | some cp => by_cases h : cp < mp <;> simp [h]

/-- Rendering in a binary-parent context of priority `pp` equals the
context-free rendering wrapped exactly when the node net
self-parenthesizes.  (`Power` and the compact multiply ignore their
context entirely.) -/
theorem to_text_aux_ctx (c : MathExpression) (pp : ℤ) :
    to_text_aux c (some pp) = parenIf (net_selfwrap c pp) (to_text_aux c none) := by
  cases c <;>
    simp only [to_text_aux, net_selfwrap, uses_generic_binary_str,
      get_priority, parenIf, Bool.false_and, if_false, Bool.true_and,
      binary_str, self_wrap] <;>
    try rfl
  case mul l r =>
    by_cases hc : compact_mul (MathExpression.mul l r) <;>
      simp [hc, to_text_aux, binary_str, self_wrap, parenIf]

end MathExpression

open MathExpression in
/-- C7 counterexample.  `PowerExpression.__str__` is overridden to render
`left^right` with no parenthesization of its own, so `2 ^ (3 ^ 2)` renders
as `2^3^2` with no parenthesis at all, even though its right child is a
binary node of equal (hence lower-or-equal) priority that is not itself
self-parenthesized — the claim requires that child to be wrapped
(`2^(3^2)`). -/
theorem to_text_power_counterexample :
    to_text (.pow (.const 2) (.pow (.const 3) (.const 2))) = "2^3^2" ∧
    (to_text (.pow (.const 2) (.pow (.const 3) (.const 2)))).contains '(' =
      false ∧
    get_priority (.pow (.const 3) (.const 2)) = some OOO_EXPONENT ∧
    get_priority (.pow (.const 2) (.pow (.const 3) (.const 2))) =
      some OOO_EXPONENT ∧
    self_wrap (some OOO_EXPONENT) OOO_EXPONENT = false := by
  refine ⟨?_, ?_, rfl, rfl, rfl⟩ <;> with_unfolding_all rfl

open MathExpression in
/-- C7 amended.  For every `Add`, `Subtract`, `Divide`, `Equal` and
non-compact `Multiply` node, `to_text` renders `left OP right` where the
left child is wrapped in parentheses exactly when it is a generically
rendered binary node of strictly lower priority, the right child exactly
when it is such a node of strictly lower priority or any binary node of
equal priority, and the node wraps itself exactly when its parent is a
binary node of strictly higher priority.  `Power` deviates: it renders
`left^right` and never adds its own parentheses (each child is wrapped
exactly when it net self-parenthesizes, so an equal-priority right child
stays unwrapped).  The compact `Constant * Variable` / `Constant * Power`
multiply renders as the bare concatenation of its children with no operator
and no parenthesization at all. -/
theorem to_text_parenthesization (l r : MathExpression) (ctx : Option ℤ) :
    (to_text_aux (.add l r) ctx =
      parenIf (self_wrap ctx OOO_ADDSUB)
        (opJoin (parenIf (net_selfwrap l OOO_ADDSUB) (to_text_aux l none)) "+"
          (parenIf (net_right OOO_ADDSUB r) (to_text_aux r none)))) ∧
    (to_text_aux (.sub l r) ctx =
      parenIf (self_wrap ctx OOO_ADDSUB)
        (opJoin (parenIf (net_selfwrap l OOO_ADDSUB) (to_text_aux l none)) "-"
          (parenIf (net_right OOO_ADDSUB r) (to_text_aux r none)))) ∧
    (compact_mul (.mul l r) = false →
      to_text_aux (.mul l r) ctx =
        parenIf (self_wrap ctx OOO_MULTDIV)
          (opJoin (parenIf (net_selfwrap l OOO_MULTDIV) (to_text_aux l none))
            "*" (parenIf (net_right OOO_MULTDIV r) (to_text_aux r none)))) ∧
    (to_text_aux (.div l r) ctx =
      parenIf (self_wrap ctx OOO_MULTDIV)
        (opJoin (parenIf (net_selfwrap l OOO_MULTDIV) (to_text_aux l none)) "/"
          (parenIf (net_right OOO_MULTDIV r) (to_text_aux r none)))) ∧
    (to_text_aux (.equal l r) ctx =
      parenIf (self_wrap ctx OOO_INVALID)
        (opJoin (parenIf (net_selfwrap l OOO_INVALID) (to_text_aux l none)) "="
          (parenIf (net_right OOO_INVALID r) (to_text_aux r none)))) ∧
    (to_text_aux (.pow l r) ctx =
      parenIf (net_selfwrap l OOO_EXPONENT) (to_text_aux l none) ++ "^" ++
        parenIf (net_selfwrap r OOO_EXPONENT) (to_text_aux r none)) ∧
    (compact_mul (.mul l r) = true →
      to_text_aux (.mul l r) ctx =
        to_text_aux l none ++ to_text_aux r none) := by
  have hright : ∀ (mp : ℤ) (x : MathExpression),
      parenIf (right_parens mp x) (to_text_aux x (some mp)) =
        parenIf (net_right mp x) (to_text_aux x none) := by
    intro mp x
    rw [to_text_aux_ctx, parenIf_parenIf _ _ _ (right_parens_net_selfwrap mp x)]
    rfl
  have hleft : ∀ (mp : ℤ) (x : MathExpression),
      parenIf (left_parens mp x) (to_text_aux x (some mp)) =
        parenIf (net_selfwrap x mp) (to_text_aux x none) := by
    intro mp x
    rw [left_parens_eq_false, to_text_aux_ctx]
    rfl
  refine ⟨?_, ?_, ?_, ?_, ?_, ?_, ?_⟩
  · show binary_str ctx OOO_ADDSUB "+" l r _ _ = _
    unfold binary_str
    rw [hleft, hright]
  · show binary_str ctx OOO_ADDSUB "-" l r _ _ = _
    unfold binary_str
    rw [hleft, hright]
  · intro hc
    show (if compact_mul (.mul l r) then _ else _) = _
    rw [hc]
    show binary_str ctx OOO_MULTDIV "*" l r _ _ = _
    unfold binary_str
    rw [hleft, hright]
  · show binary_str ctx OOO_MULTDIV "/" l r _ _ = _
    unfold binary_str
    rw [hleft, hright]
  · show binary_str ctx OOO_INVALID "=" l r _ _ = _
    unfold binary_str
    rw [hleft, hright]
  · show to_text_aux l (some OOO_EXPONENT) ++ "^" ++
        to_text_aux r (some OOO_EXPONENT) = _
    rw [to_text_aux_ctx, to_text_aux_ctx]
  · intro hc
    show (if compact_mul (.mul l r) then _ else _) = _
    rw [hc]
    simp only [if_true]
    cases l <;> simp_all [compact_mul]
    cases r <;> simp_all [compact_mul] <;>
      (rw [to_text_aux_ctx, to_text_aux_ctx]
       simp [net_selfwrap, uses_generic_binary_str, get_priority, parenIf,
         compact_mul, OOO_MULTDIV, OOO_EXPONENT])

open MathExpression in
/-- Witness for the C7 amended theorem: the non-compact multiply clause at
`x * y` rendered as a root. -/
theorem to_text_parenthesization_witness :
    to_text_aux (.mul (.var "x") (.var "y")) none =
      parenIf (self_wrap none OOO_MULTDIV)
        (opJoin
          (parenIf (net_selfwrap (.var "x") OOO_MULTDIV)
            (to_text_aux (.var "x") none)) "*"
          (parenIf (net_right OOO_MULTDIV (.var "y"))
            (to_text_aux (.var "y") none))) :=
  (to_text_parenthesization (.var "x") (.var "y") none).2.2.1 rfl

namespace MathExpression

/-- `node.__class__.__name__`, the component used by `path_to_root`. -/
def className : MathExpression → String
  | const _ => "ConstantExpression"
  | var _ => "VariableExpression"
  | neg _ => "NegateExpression"
  | abs _ => "AbsExpression"
  | sgn _ => "SgnExpression"
  | add _ _ => "AddExpression"
  | sub _ _ => "SubtractExpression"
  | mul _ _ => "MultiplyExpression"
  | div _ _ => "DivideExpression"
  | pow _ _ => "PowerExpression"
  | equal _ _ => "EqualExpression"

/-- The class names from the node at path `p` up to the root (node first),
the list joined by `path_to_root`. -/
def pathNames (e : MathExpression) : TreePath → Option (List String)
  | [] => some [className e]
  | s :: ps =>
    match e.childOf s with
    | none => none
    | some c => (pathNames c ps).map (fun l => l ++ [className e])

/-- `MathExpression.path_to_root` of the node at path `p` of `T`: the
dot-joined class names from the node to the root. -/
def path_to_root (T : MathExpression) (p : TreePath) : Option String :=
  (pathNames T p).map (String.intercalate ".")

/-- Restrict a tracked address to the child on side `s`: the tracked node
lies in that child's subtree exactly when the address starts with `s`. -/
def trChild (tr : Option TreePath) (s : Side) : Option TreePath :=
  match tr with
  | some (s' :: ps) => if s' = s then some ps else none
  | _ => none

/-- The check `MathExpression.clone` performs while a tracked clone is in
progress: the node being cloned is the tracked one (`self.cloned_target` is
set only on that node) and its freshly computed `path_to_root()` equals the
recorded target string; if so the clone result is captured. -/
def trackHit (tr : Option TreePath) (name : String) (up : List String)
    (target : String) (res : MathExpression) : Option MathExpression :=
  if tr = some [] ∧ String.intercalate "." (name :: up) = target then some res
  else none

/-- `MathExpression.clone` during a `clone_from_root` call: deep-copy the
subtree (per spec §4.1 the copy in the missing `tree.py` preserves kind and
payload; the fresh node identifiers it assigns are not part of the value
model) while reporting the clone of the tracked node.  `tr` is the address
of the tracked node relative to the current subtree (`none` when the
tracked node is elsewhere, so this node never captures —
`self.cloned_target` is per-object state), `up` the class names of the
ancestors already entered. -/
def cloneTrack : MathExpression → Option TreePath → String → List String →
    MathExpression × Option MathExpression
  | const v, tr, target, up =>
    (const v, trackHit tr "ConstantExpression" up target (const v))
  | var s, tr, target, up =>
    (var s, trackHit tr "VariableExpression" up target (var s))
  | neg c, tr, target, up =>
    let cp := cloneTrack c (trChild tr Side.L) target ("NegateExpression" :: up)
    (neg cp.1, trackHit tr "NegateExpression" up target (neg cp.1) <|> cp.2)
  | abs c, tr, target, up =>
    let cp := cloneTrack c (trChild tr Side.L) target ("AbsExpression" :: up)
    (abs cp.1, trackHit tr "AbsExpression" up target (abs cp.1) <|> cp.2)
  | sgn c, tr, target, up =>
    let cp := cloneTrack c (trChild tr Side.L) target ("SgnExpression" :: up)
    (sgn cp.1, trackHit tr "SgnExpression" up target (sgn cp.1) <|> cp.2)
  | add l r, tr, target, up =>
    let lp := cloneTrack l (trChild tr Side.L) target ("AddExpression" :: up)
    let rp := cloneTrack r (trChild tr Side.R) target ("AddExpression" :: up)
    (add lp.1 rp.1,
      trackHit tr "AddExpression" up target (add lp.1 rp.1) <|> lp.2 <|> rp.2)
  | sub l r, tr, target, up =>
    let lp := cloneTrack l (trChild tr Side.L) target ("SubtractExpression" :: up)
    let rp := cloneTrack r (trChild tr Side.R) target ("SubtractExpression" :: up)
    (sub lp.1 rp.1,
      trackHit tr "SubtractExpression" up target (sub lp.1 rp.1) <|> lp.2 <|> rp.2)
  | mul l r, tr, target, up =>
    let lp := cloneTrack l (trChild tr Side.L) target ("MultiplyExpression" :: up)
    let rp := cloneTrack r (trChild tr Side.R) target ("MultiplyExpression" :: up)
    (mul lp.1 rp.1,
      trackHit tr "MultiplyExpression" up target (mul lp.1 rp.1) <|> lp.2 <|> rp.2)
  | div l r, tr, target, up =>
    let lp := cloneTrack l (trChild tr Side.L) target ("DivideExpression" :: up)
    let rp := cloneTrack r (trChild tr Side.R) target ("DivideExpression" :: up)
    (div lp.1 rp.1,
      trackHit tr "DivideExpression" up target (div lp.1 rp.1) <|> lp.2 <|> rp.2)
  | pow l r, tr, target, up =>
    let lp := cloneTrack l (trChild tr Side.L) target ("PowerExpression" :: up)
    let rp := cloneTrack r (trChild tr Side.R) target ("PowerExpression" :: up)
    (pow lp.1 rp.1,
      trackHit tr "PowerExpression" up target (pow lp.1 rp.1) <|> lp.2 <|> rp.2)
  | equal l r, tr, target, up =>
    let lp := cloneTrack l (trChild tr Side.L) target ("EqualExpression" :: up)
    let rp := cloneTrack r (trChild tr Side.R) target ("EqualExpression" :: up)
    (equal lp.1 rp.1,
      trackHit tr "EqualExpression" up target (equal lp.1 rp.1) <|> lp.2 <|> rp.2)

/-- `MathExpression.clone_from_root` for the node at path `p` of `T`:
record the node's `path_to_root()` as the clone target, clone the whole
root while tracking, and return the captured clone of the node (`none`
models the "cloning root hierarchy did not clone this node" failure). -/
def clone_from_root (T : MathExpression) (p : TreePath) :
    Option MathExpression :=
  match path_to_root T p with
  | none => none
  | some target => (cloneTrack T (some p) target []).2

/-- The clone built by `cloneTrack` is structurally the original tree
(payloads and shape are preserved; only the unmodelled identifiers are
fresh). -/
theorem cloneTrack_fst (e : MathExpression) :
    ∀ tr target up, (cloneTrack e tr target up).1 = e := by
  induction e <;> intro tr target up <;> simp_all [cloneTrack]

/-- A subtree that does not contain the tracked node captures nothing. -/
theorem cloneTrack_none (e : MathExpression) :
    ∀ target up, (cloneTrack e none target up).2 = none := by
  induction e <;> intro target up <;>
    simp_all [cloneTrack, trackHit, trChild]

/-- When a node exists at path `p`, `pathNames` succeeds as well. -/
theorem pathNames_isSome (p : TreePath) :
    ∀ (T n : MathExpression), T.subtreeAt p = some n →
      ∃ names, pathNames T p = some names := by
  induction p with
  | nil => intro T n _; exact ⟨[className T], rfl⟩
  | cons s ps ih =>
    intro T n hs
    simp only [MathExpression.subtreeAt, Option.bind_eq_some] at hs
    obtain ⟨c, hc, hcs⟩ := hs
    obtain ⟨names, hnames⟩ := ih c n hcs
    exact ⟨names ++ [className T], by simp [pathNames, hc, hnames]⟩

/-- The tracked clone captures exactly the (clone of the) node at the
tracked address: the path string recomputed at that node during the clone
matches the recorded target. -/
theorem cloneTrack_capture (p : TreePath) :
    ∀ (e n : MathExpression) (names : List String) (up : List String),
      pathNames e p = some names → e.subtreeAt p = some n →
      (cloneTrack e (some p)
        (String.intercalate "." (names ++ up)) up).2 = some n := by
  induction p with
  | nil =>
    intro e n names up hnames hs
    simp only [pathNames, Option.some.injEq] at hnames
    simp only [MathExpression.subtreeAt, Option.some.injEq] at hs
    subst hnames; subst hs
    cases e <;>
      simp [cloneTrack, trackHit, className, cloneTrack_fst]
  | cons s ps ih =>
    intro e n names up hnames hs
    simp only [pathNames] at hnames
    simp only [MathExpression.subtreeAt, Option.bind_eq_some] at hs
    obtain ⟨c, hc, hcs⟩ := hs
    rw [hc] at hnames
    simp only [Option.map_eq_some'] at hnames
    obtain ⟨names', hnames', hn⟩ := hnames
    subst hn
    have hassoc : (names' ++ [className e]) ++ up =
        names' ++ (className e :: up) := by simp
    rw [hassoc]
    have key := ih c n names' (className e :: up) hnames' hcs
    cases e <;> cases s <;>
      simp_all [cloneTrack, trackHit, trChild, className,
        MathExpression.childOf, MathExpression.leftOf, MathExpression.rightOf,
        cloneTrack_none]

end MathExpression

/-- C6.  Tracked-clone correctness: for every tree `T` and node inside it
(at path `p`), `clone_from_root` succeeds — the "did not clone this node"
failure is unreachable — and returns the node of the clone at the same
address, whose rendered text (in its context inside the clone) equals the
rendered text of the original node inside `T`. -/
theorem clone_from_root_tracks (T : MathExpression) (p : TreePath)
    (n : MathExpression) (hs : T.subtreeAt p = some n) :
    MathExpression.clone_from_root T p = some n ∧
    (MathExpression.clone_from_root T p).map
        (fun m => MathExpression.to_text_aux m (MathExpression.ctx_at T p none)) =
      MathExpression.render_at T p := by
  obtain ⟨names, hnames⟩ := MathExpression.pathNames_isSome p T n hs
  have hcap := MathExpression.cloneTrack_capture p T n names [] hnames hs
  rw [List.append_nil] at hcap
  have hmain : MathExpression.clone_from_root T p = some n := by
    unfold MathExpression.clone_from_root MathExpression.path_to_root
    rw [hnames]
    simpa using hcap
  refine ⟨hmain, ?_⟩
  rw [hmain]
  unfold MathExpression.render_at
  rw [hs]

/-- Witness for C6 at the interior node `4 * x` of the tree `4x + 3`. -/
theorem clone_from_root_tracks_witness :
    MathExpression.clone_from_root
        (.add (.mul (.const 4) (.var "x")) (.const 3)) [Side.L] =
      some (.mul (.const 4) (.var "x")) ∧
    (MathExpression.clone_from_root
        (.add (.mul (.const 4) (.var "x")) (.const 3)) [Side.L]).map
        (fun m => MathExpression.to_text_aux m
          (MathExpression.ctx_at
            (.add (.mul (.const 4) (.var "x")) (.const 3)) [Side.L] none)) =
      MathExpression.render_at
        (.add (.mul (.const 4) (.var "x")) (.const 3)) [Side.L] :=
  clone_from_root_tracks
    (.add (.mul (.const 4) (.var "x")) (.const 3)) [Side.L]
    (.mul (.const 4) (.var "x")) (by with_unfolding_all rfl)

/-- The `MathTypeKeys` dictionary of `mathy.core.expressions` (note: it has
no `"abs"` or `"sgn"` key — 8–15 are reserved for future function types). -/
def MathTypeKeys : List (String × ℕ) :=
  [("empty", 0), ("negate", 1), ("equal", 2), ("add", 3), ("subtract", 4),
   ("multiply", 5), ("divide", 6), ("power", 7),
   ("constant_0", 16), ("constant_1", 17), ("constant_2", 18),
   ("constant_3", 19), ("constant_4", 20), ("constant_5", 21),
   ("constant_6", 22), ("constant_7", 23), ("constant_8", 24),
   ("constant_9", 25),
   ("variable", 26),
   ("variable_a", 27), ("variable_b", 28), ("variable_c", 29),
   ("variable_d", 30), ("variable_e", 31), ("variable_f", 32),
   ("variable_g", 33), ("variable_h", 34), ("variable_i", 35),
   ("variable_j", 36), ("variable_k", 37), ("variable_l", 38),
   ("variable_m", 39), ("variable_n", 40), ("variable_o", 41),
   ("variable_p", 42), ("variable_q", 43), ("variable_r", 44),
   ("variable_s", 45), ("variable_t", 46), ("variable_u", 47),
   ("variable_v", 48), ("variable_w", 49), ("variable_x", 50),
   ("variable_y", 51), ("variable_z", 52)]

/-- `MathTypeKeysMax = max(MathTypeKeys.values())`. -/
def MathTypeKeysMax : ℕ :=
  (MathTypeKeys.map Prod.snd).foldr max 0

namespace MathExpression

/-- Python `int(value % 10)` for a (non-negative-modulus) float/int value:
the last decimal digit of the integer part.  `value % 10` lies in `[0, 10)`,
so truncation coincides with the floor. -/
def pydigit (v : ℚ) : ℤ :=
  Int.floor (v - 10 * Int.floor (v / 10))

/-- `node.type_id`: each class looks its key up in `MathTypeKeys` (`none`
models the `KeyError` a missing key raises).  A constant uses
`f"constant_{int(self.value % 10)}"`; a variable lowercases its identifier
and uses the first character (`none` also models the `IndexError` on an
empty identifier); `AbsExpression`/`SgnExpression` ask for the absent
`"abs"`/`"sgn"` keys. -/
def type_id : MathExpression → Option ℕ
  | .neg _ => lookupKey "negate" MathTypeKeys
  | .abs _ => lookupKey "abs" MathTypeKeys
  | .sgn _ => lookupKey "sgn" MathTypeKeys
  | .add _ _ => lookupKey "add" MathTypeKeys
  | .sub _ _ => lookupKey "subtract" MathTypeKeys
  | .mul _ _ => lookupKey "multiply" MathTypeKeys
  | .div _ _ => lookupKey "divide" MathTypeKeys
  | .pow _ _ => lookupKey "power" MathTypeKeys
  | .equal _ _ => lookupKey "equal" MathTypeKeys
  | .const v => lookupKey ("constant_" ++ toString (pydigit v)) MathTypeKeys
  | .var s =>
    match s.toList with
    | [] => none
    | c :: _ => lookupKey ("variable_" ++ String.mk [c.toLower]) MathTypeKeys

theorem pydigit_nonneg (v : ℚ) : 0 ≤ pydigit v := by
  have h := Int.floor_le (v / 10)
  have h1 : (0:ℚ) ≤ v - 10 * Int.floor (v / 10) := by
    have : (10:ℚ) * Int.floor (v / 10) ≤ 10 * (v / 10) := by
      have hle : ((Int.floor (v / 10) : ℚ)) ≤ v / 10 := h
      nlinarith
    have hv : (10:ℚ) * (v / 10) = v := by ring
    linarith
  exact Int.floor_nonneg.mpr h1

theorem pydigit_lt_ten (v : ℚ) : pydigit v < 10 := by
  have h := Int.lt_floor_add_one (v / 10)
  have h2 : v - 10 * Int.floor (v / 10) < 10 := by
    have : v / 10 < (Int.floor (v / 10) : ℚ) + 1 := h
    nlinarith
  have : v - 10 * Int.floor (v / 10) < ((10:ℤ) : ℚ) := by exact_mod_cast h2
  exact Int.floor_lt.mpr this

/-- A successful lookup returns one of the dictionary's values. -/
theorem lookupKey_mem {l : List (String × ℕ)} {k : String} {v : ℕ}
    (h : lookupKey k l = some v) : v ∈ l.map Prod.snd := by
  induction l with
  | nil => simp [lookupKey] at h
  | cons hd tl ih =>
    obtain ⟨k', v'⟩ := hd
    by_cases hk : k = k'
    · simp [lookupKey, hk] at h
      simp [h]
    · simp [lookupKey, hk] at h
      simp [ih h]

set_option maxRecDepth 8000 in
/-- The constant slot for any last digit `0 ≤ d < 10`. -/
theorem lookup_constant_digit (d : ℤ) (h0 : 0 ≤ d) (h9 : d < 10) :
    lookupKey ("constant_" ++ toString d) MathTypeKeys =
      some (16 + d.toNat) := by
  interval_cases d <;> with_unfolding_all decide

end MathExpression

/-- C8 counterexample.  `AbsExpression.type_id` looks up the key `"abs"`,
which `MathTypeKeys` does not contain, so it raises `KeyError` instead of
returning an integer (same for `SgnExpression`); and a constant is mapped
through `int(value % 10)` — its *last* decimal digit — so `42` lands in the
`constant_2` slot (18) rather than the claimed first-significant-digit slot
`constant_4` (20). -/
theorem type_id_counterexample :
    MathExpression.type_id (.abs (.const 1)) = none ∧
    MathExpression.type_id (.sgn (.const 1)) = none ∧
    MathExpression.type_id (.const 42) = some 18 ∧
    lookupKey "constant_4" MathTypeKeys = some 20 ∧ (18 : ℕ) ≠ 20 := by
  refine ⟨?_, ?_, ?_, ?_, ?_⟩ <;> with_unfolding_all decide

set_option maxRecDepth 8000 in
/-- C8 amended.  `type_id` returns a value in `[0, MathTypeKeysMax]` for
every node kind *except* `Abs` and `Sgn`, whose `type_id` fails on the
missing `"abs"`/`"sgn"` keys; a constant is mapped to the slot of the last
decimal digit of its value (`int(value % 10)`), and a variable whose
lowercased identifier starts with a letter `a`–`z` (in particular every
single-letter variable) to the slot of that letter. -/
theorem type_id_characterization :
    (∀ (e : MathExpression) (k : ℕ), MathExpression.type_id e = some k →
        k ≤ MathTypeKeysMax) ∧
    (∀ c, MathExpression.type_id (.abs c) = none ∧
        MathExpression.type_id (.sgn c) = none) ∧
    (∀ v : ℚ, MathExpression.type_id (.const v) =
        some (16 + (MathExpression.pydigit v).toNat)) ∧
    (∀ c, MathExpression.type_id (.neg c) = some 1) ∧
    (∀ l r, MathExpression.type_id (.add l r) = some 3 ∧
        MathExpression.type_id (.sub l r) = some 4 ∧
        MathExpression.type_id (.mul l r) = some 5 ∧
        MathExpression.type_id (.div l r) = some 6 ∧
        MathExpression.type_id (.pow l r) = some 7 ∧
        MathExpression.type_id (.equal l r) = some 2) ∧
    (∀ c ∈ "abcdefghijklmnopqrstuvwxyz".toList,
        MathExpression.type_id (.var (String.mk [c])) =
          some (27 + (c.toNat - 97))) := by
  have hmax : ∀ v ∈ MathTypeKeys.map Prod.snd, v ≤ MathTypeKeysMax := by
    decide
  refine ⟨?_, ?_, ?_, fun c => rfl,
    fun l r => ⟨rfl, rfl, rfl, rfl, rfl, rfl⟩, ?_⟩
  · intro e k h
    cases e with
    | const v => exact hmax k (MathExpression.lookupKey_mem h)
    | var s =>
      simp only [MathExpression.type_id] at h
      split at h
      · exact absurd h (by simp)
      · exact hmax k (MathExpression.lookupKey_mem h)
    | abs c =>
      have habs : MathExpression.type_id (.abs c) = none := rfl
      rw [habs] at h
      exact absurd h (by simp)
    | sgn c =>
      have hsgn : MathExpression.type_id (.sgn c) = none := rfl
      rw [hsgn] at h
      exact absurd h (by simp)
    | neg c => exact hmax k (MathExpression.lookupKey_mem h)
    | add l r => exact hmax k (MathExpression.lookupKey_mem h)
    | sub l r => exact hmax k (MathExpression.lookupKey_mem h)
    | mul l r => exact hmax k (MathExpression.lookupKey_mem h)
    | div l r => exact hmax k (MathExpression.lookupKey_mem h)
    | pow l r => exact hmax k (MathExpression.lookupKey_mem h)
    | equal l r => exact hmax k (MathExpression.lookupKey_mem h)
  · exact fun c => ⟨rfl, rfl⟩
  · intro v
    show lookupKey ("constant_" ++ toString (MathExpression.pydigit v))
        MathTypeKeys = _
    exact MathExpression.lookup_constant_digit _
      (MathExpression.pydigit_nonneg v) (MathExpression.pydigit_lt_ten v)
  · with_unfolding_all decide

/-- Witness for the C8 amended theorem: the bound conjunct applied to the
constant `42` and the letter conjunct applied to `x`. -/
theorem type_id_characterization_witness :
    (18 : ℕ) ≤ MathTypeKeysMax ∧
    MathExpression.type_id (.var (String.mk ['x'])) = some (27 + 23) :=
  ⟨type_id_characterization.1 (.const 42) 18 (by with_unfolding_all decide),
    by
      have h := type_id_characterization.2.2.2.2.2 'x'
        (by with_unfolding_all decide)
      simpa using h⟩

/-- C4.  `VariableExpression.evaluate` runs
`if context and context[self.identifier]`, so with the binding `{x: 0}` the
bound value `0` is falsy and evaluation raises the unbound-variable error
even though `x` is present — the claim (and spec) say evaluation must
succeed and return the bound value whenever the identifier is bound.  The
other conjuncts document the surrounding behaviour: empty bindings and a
missing identifier fail, a non-zero binding is returned. -/
theorem variable_evaluate_zero_binding_bug :
    MathExpression.evaluate (.var "x") [("x", 0)] = none ∧
    MathExpression.evaluate (.var "x") [] = none ∧
    MathExpression.evaluate (.var "x") [("x", 42)] = some 42 ∧
    MathExpression.evaluate (.var "x") [("y", 1)] = none := by
  refine ⟨?_, ?_, ?_, ?_⟩ <;> with_unfolding_all rfl

namespace MathExpression

/-- `node.differentiate(by_variable)`, with `none` for the paths that
raise:
* the `MathExpression` base method raises, and `ConstantExpression` and
  `EqualExpression` never override it;
* `SubtractExpression.differentiate` returns
  `AddExpression(d(left), d(right))` — the code's own comment says
  `d( f(x) ) = d( g(x) ) - d( h(x) )`;
* `PowerExpression.differentiate` raises `Unimplemented`;
* `AbsExpression.differentiate` calls the non-existent method
  `self.child.Differentiate` (an `AttributeError`). -/
def differentiate : MathExpression → String → Option MathExpression
  | .const _, _ => none
  | .var s, byVar => some (if byVar = s then .const 1 else .const 0)
  | .neg c, byVar => (differentiate c byVar).bind fun dc => some (.neg dc)
  | .abs _, _ => none
  | .sgn _, _ => some (.const 0)
  | .add l r, byVar =>
    (differentiate l byVar).bind fun dl =>
      (differentiate r byVar).bind fun dr => some (.add dl dr)
  | .sub l r, byVar =>
    (differentiate l byVar).bind fun dl =>
      (differentiate r byVar).bind fun dr => some (.add dl dr)
  | .mul l r, byVar =>
    (differentiate l byVar).bind fun dl =>
      (differentiate r byVar).bind fun dr =>
        some (.add (.mul l dr) (.mul dl r))
  | .div l r, byVar =>
    (differentiate l byVar).bind fun dl =>
      (differentiate r byVar).bind fun dr =>
        some (.div (.sub (.mul dl r) (.mul l dr)) (.pow r (.const 2)))
  | .pow _ _, _ => none
  | .equal _ _, _ => none

end MathExpression

/-- C5.  The sum/difference rule and the base cases are *not* implemented
as claimed: `SubtractExpression.differentiate` builds an `Add` of the child
derivatives (contradicting the comment directly above it in the source), so
`d(x - x)/dx` evaluates to `2` instead of `0`; and `ConstantExpression`
never overrides `differentiate`, so `d(c)/dx` raises instead of yielding
the constant `0`.  The variable base case does behave as claimed
(`d(x)/dx = 1`, `d(y)/dx = 0`). -/
theorem subtract_differentiate_bug :
    MathExpression.differentiate (.sub (.var "x") (.var "x")) "x" =
      some (.add (.const 1) (.const 1)) ∧
    MathExpression.evaluate (.add (.const 1) (.const 1)) [] = some 2 ∧
    MathExpression.differentiate (.const 5) "x" = none ∧
    MathExpression.differentiate (.var "x") "x" = some (.const 1) ∧
    MathExpression.differentiate (.var "y") "x" = some (.const 0) := by
  refine ⟨?_, ?_, ?_, ?_, ?_⟩ <;> with_unfolding_all decide

/-- The node-kind tag of a parent link, used by `get_term`'s parent
inspections (`is_add_or_sub(node.parent)`, `isinstance(n.parent, ...)`).
Leaves (constants, variables) never occur as parents. -/
inductive NodeKind where
  | negK : NodeKind
  | absK : NodeKind
  | sgnK : NodeKind
  | addK : NodeKind
  | subK : NodeKind
  | mulK : NodeKind
  | divK : NodeKind
  | powK : NodeKind
  | eqK : NodeKind
deriving DecidableEq, Repr

/-- `TermResult` of `mathy.helpers`: the value view of a term summary
(ordered coefficients, sorted variable identifiers, optional exponent).
The `node_*` back-reference fields are not used by `terms_are_like` and are
not part of the value model. -/
structure TermResult where
  coefficients : List ℚ
  /-- the `variables` field (a Lean keyword, hence the shortened name) -/
  vars : List String
  exponent : Option ℚ
deriving DecidableEq, Repr

namespace MathExpression

/-- `helpers.is_add_or_sub`. -/
def is_add_or_sub : MathExpression → Bool
  | add _ _ => true
  | sub _ _ => true
  | _ => false

/-- `len(node.findByType(AddExpression)) > 0`. -/
def containsAdd : MathExpression → Bool
  | const _ => false
  | var _ => false
  | neg c => containsAdd c
  | abs c => containsAdd c
  | sgn c => containsAdd c
  | add _ _ => true
  | sub l r => containsAdd l || containsAdd r
  | mul l r => containsAdd l || containsAdd r
  | div l r => containsAdd l || containsAdd r
  | pow l r => containsAdd l || containsAdd r
  | equal l r => containsAdd l || containsAdd r

/-- `len(node.findByType(SubtractExpression)) > 0`. -/
def containsSub : MathExpression → Bool
  | const _ => false
  | var _ => false
  | neg c => containsSub c
  | abs c => containsSub c
  | sgn c => containsSub c
  | add l r => containsSub l || containsSub r
  | sub _ _ => true
  | mul l r => containsSub l || containsSub r
  | div l r => containsSub l || containsSub r
  | pow l r => containsSub l || containsSub r
  | equal l r => containsSub l || containsSub r

/-- `node.findByType(PowerExpression)`: the `Power` nodes of the subtree in
inorder. -/
def powersIn : MathExpression → List MathExpression
  | const _ => []
  | var _ => []
  | neg c => powersIn c
  | abs c => powersIn c
  | sgn c => powersIn c
  | add l r => powersIn l ++ powersIn r
  | sub l r => powersIn l ++ powersIn r
  | mul l r => powersIn l ++ powersIn r
  | div l r => powersIn l ++ powersIn r
  | pow l r => powersIn l ++ [pow l r] ++ powersIn r
  | equal l r => powersIn l ++ powersIn r

/-- The identifiers of `node.findByType(VariableExpression)` in inorder. -/
def varsIn : MathExpression → List String
  | const _ => []
  | var s => [s]
  | neg c => varsIn c
  | abs c => varsIn c
  | sgn c => varsIn c
  | add l r => varsIn l ++ varsIn r
  | sub l r => varsIn l ++ varsIn r
  | mul l r => varsIn l ++ varsIn r
  | div l r => varsIn l ++ varsIn r
  | pow l r => varsIn l ++ varsIn r
  | equal l r => varsIn l ++ varsIn r

/-- `node.findByType(ConstantExpression)` in inorder, each constant paired
with the kind of its parent (`pk` is the kind of the parent of the subtree
root, relevant only when the root itself is the constant). -/
def constsIn : MathExpression → Option NodeKind → List (ℚ × Option NodeKind)
  | const v, pk => [(v, pk)]
  | var _, _ => []
  | neg c, _ => constsIn c (some .negK)
  | abs c, _ => constsIn c (some .absK)
  | sgn c, _ => constsIn c (some .sgnK)
  | add l r, _ => constsIn l (some .addK) ++ constsIn r (some .addK)
  | sub l r, _ => constsIn l (some .subK) ++ constsIn r (some .subK)
  | mul l r, _ => constsIn l (some .mulK) ++ constsIn r (some .mulK)
  | div l r, _ => constsIn l (some .divK) ++ constsIn r (some .divK)
  | pow l r, _ => constsIn l (some .powK) ++ constsIn r (some .powK)
  | equal l r, _ => constsIn l (some .eqK) ++ constsIn r (some .eqK)

/-- `get_term`'s `filter_coefficients` for a constant that is a proper
descendant of the queried node: dropped when its parent is a binary
expression other than `Multiply`.  (`not n.parent` keeps a parentless
constant; the `n.parent == node.parent` identity case — the queried node
itself — is handled separately in `get_term`.) -/
def keep_coefficient : Option NodeKind → Bool
  | none => true
  | some .mulK => true
  | some .negK => true
  | some .absK => true
  | some .sgnK => true
  | _ => false

/-- `get_term`'s `resolve_coefficients`: negate the value when the
constant's parent is a `Negate` node. -/
def resolve_coefficient (vk : ℚ × Option NodeKind) : ℚ :=
  if vk.2 = some NodeKind.negK then -vk.1 else vk.1

/-- `BinaryTreeNode.is_leaf`.  Modelled from the spec: `tree.py` is not
under `src/`; a leaf is a node with no children. -/
def is_leaf (e : MathExpression) : Bool :=
  e.leftOf.isNone && e.rightOf.isNone

/-- Insert into a sorted list of identifiers (code-point order, as Python's
`list.sort()` on strings). -/
def insertSorted (s : String) : List String → List String
  | [] => [s]
  | t :: ts => if s ≤ t then s :: t :: ts else t :: insertSorted s ts

/-- `variables.sort()`. -/
def sortStrings : List String → List String
  | [] => []
  | s :: ss => insertSorted s (sortStrings ss)

/-- `helpers.get_term(node)` for a node whose parent (in its owning tree)
has kind `parentK` (`none` for a root).  Returns `none` where the code
returns `False`. -/
def get_term (node : MathExpression) (parentK : Option NodeKind) :
    Option TermResult :=
  -- Constant/Variable with no parent or an Add/Sub parent: fast path.
  match node, parentK with
  | const v, none => some ⟨[v], [], none⟩
  | const v, some .addK => some ⟨[v], [], none⟩
  | const v, some .subK => some ⟨[v], [], none⟩
  | var s, none => some ⟨[], [s], none⟩
  | var s, some .addK => some ⟨[], [s], none⟩
  | var s, some .subK => some ⟨[], [s], none⟩
  | _, _ =>
    -- A non-Add/Sub node containing an Add or Subtract is not a term.
    if !(is_add_or_sub node) && (containsAdd node || containsSub node) then
      none
    else
      -- An Add in the left subtree with a non-leaf right child, or any Add
      -- in the right subtree, blocks extraction.
      let leftAdd :=
        match node.leftOf with
        | some l => containsAdd l
        | none => false
      let rightNotLeaf :=
        match node.rightOf with
        | some r => !(is_leaf r)
        | none => false
      if leftAdd && rightNotLeaf then none
      else if (match node.rightOf with
               | some r => containsAdd r
               | none => false) then none
      else
        -- At most one Power node, whose right operand must be a Constant.
        match powersIn node with
        | [] =>
          get_term_tail node parentK none
        | [p] =>
          match p.rightOf with
          | some (const c) => get_term_tail node parentK (some c)
          | _ => none
        | _ => none
where
  /-- The variable/coefficient extraction and the final emptiness check. -/
  get_term_tail (node : MathExpression) (parentK : Option NodeKind)
      (exponent : Option ℚ) : Option TermResult :=
    let vs := sortStrings (varsIn node)
    let coefficients :=
      match node with
      | const v =>
        -- the queried node itself: `n.parent == node.parent` keeps it
        [resolve_coefficient (v, parentK)]
      | _ =>
        ((constsIn node parentK).filter fun vc =>
          keep_coefficient vc.2).map resolve_coefficient
    if vs.isEmpty && coefficients.isEmpty && exponent.isNone then none
    else some ⟨coefficients, vs, exponent⟩

end MathExpression

/-- `helpers.terms_are_like(one, two)` on already-extracted term summaries
(`none` models the `False` marker of an invalid term). -/
def terms_are_like (one two : Option TermResult) : Bool :=
  match one, two with
  | some a, some b =>
    -- if neither has variables, they match
    if a.vars.isEmpty && b.vars.isEmpty then true
    -- both must have the same number of variables
    else if !(a.vars.length == b.vars.length) then false
    -- every variable of the first must appear in the second
    else if a.vars.any (fun v => !(b.vars.contains v)) then false
    -- and the exponents must match
    else if !(a.exponent == b.exponent) then false
    else true
  | _, _ => false

/-- C9 counterexample.  Two valid terms (both extracted by `get_term`) with
*different* exponents — `2^3` has exponent `3`, the bare constant `5` has
none — are reported as like terms, because `terms_are_like` returns `True`
as soon as neither term has variables, without comparing exponents. -/
theorem terms_are_like_counterexample :
    MathExpression.get_term (.pow (.const 2) (.const 3)) none =
      some ⟨[], [], some 3⟩ ∧
    MathExpression.get_term (.const 5) none = some ⟨[5], [], none⟩ ∧
    terms_are_like (some ⟨[], [], some 3⟩) (some ⟨[5], [], none⟩) = true ∧
    (some (3:ℚ) : Option ℚ) ≠ (none : Option ℚ) := by
  refine ⟨?_, ?_, ?_, ?_⟩ <;> with_unfolding_all decide

/-- C9 amended.  For terms `a` and `b`, `terms_are_like` returns `True` iff
either *neither term has variables* (their exponents are then ignored), or
the variable lists have equal length, every variable of the first occurs in
the second (the converse containment is not checked, so duplicated
variables can defeat it), and the exponents are equal. -/
theorem terms_are_like_characterization (a b : TermResult) :
    terms_are_like (some a) (some b) = true ↔
      ((a.vars = [] ∧ b.vars = []) ∨
       (a.vars.length = b.vars.length ∧
        (∀ v ∈ a.vars, v ∈ b.vars) ∧
        a.exponent = b.exponent)) := by
  simp only [terms_are_like]
  split_ifs with h1 h2 h3 h4 <;>
    simp_all [List.isEmpty_iff, List.any_eq_true]

/-- Witness for the C9 amended theorem: two single-variable terms with the
same variable and no exponent are like terms. -/
theorem terms_are_like_characterization_witness :
    terms_are_like (some ⟨[], ["x"], none⟩) (some ⟨[], ["x"], none⟩) = true :=
  (terms_are_like_characterization ⟨[], ["x"], none⟩ ⟨[], ["x"], none⟩).mpr
    (Or.inr ⟨rfl, by simp, rfl⟩)

end Mathy
